import Mathlib

/-!
Verification of the Lightroom reverse-connection task broker
(`lrc_scripts/servers/lrc_task_server.py`) and the worker-side timeout
estimator (`lrc_scripts/clients/lr_task_client.py`).

The broker's handlers all run their state transitions under one asyncio
lock (`task_lock`), so the concurrent system is equivalent to a sequential
interleaving of atomic operations on the shared store.  We embed that store
(`tasks`, `clients`, `completed_tasks` — Python dicts, which preserve
insertion order) as association lists keyed by id, and each HTTP handler as
a pure function from the request and the current time to a response
(`Except HTTPError _`, carrying the HTTP status code of a raised
`HTTPException`) paired with the successor state.  Timestamps are modelled
as integers; `HTTPException` detail strings and the filesystem side of the
upload path (the temp-write/rename/re-verify dance) are elided, the latter
modelled as a successful write of the given number of bytes.
-/

namespace LrcServer

/-- Task status enumeration of the server (`TaskStatus`). -/
inductive TaskStatus where
  | pending
  | reading
  | processing
  | completed
  | failed
deriving DecidableEq, Repr

/-- The `task.result` dict.  Python builds it as a plain dict, so every key
may be absent; an outer `none` on a field means the key is missing. -/
structure ResultRecord where
  success : Option Bool := none
  elapsed_time : Option Int := none
  error : Option (Option String) := none
  result_data : Option (Option String) := none
  completed_at : Option Int := none
  processed_image_path : Option String := none
  upload_timestamp : Option Int := none
  file_size : Option Int := none
deriving DecidableEq, Repr

/-- The `Task` pydantic model of the server. -/
structure Task where
  task_id : String
  photo_path : String
  xmp_path : String
  created_at : Int
  status : TaskStatus := TaskStatus.pending
  client_id : Option String := none
  read_at : Option Int := none
  read_timeout : Int := 10
  result : Option ResultRecord := none
  file_package_path : Option String := none
  requires_download : Bool := false
deriving DecidableEq, Repr

/-- The `TaskResult` request body of `/api/report_result`. -/
structure TaskResult where
  task_id : String
  client_id : String
  success : Bool
  elapsed_time : Int
  error : Option String := none
  result_data : Option String := none
deriving DecidableEq, Repr

/-- The `ClientInfo` pydantic model of the server. -/
structure ClientInfo where
  client_id : String
  client_type : String := "lightroom_bridge"
  capabilities : List String := ["photo_processing"]
  status : String := "ready"
  last_seen : Int
  local_port : Int := 7777
deriving DecidableEq, Repr

/-- The response dict `get_task` returns for a claimed task: a snapshot of
field values, not a reference into the store. -/
structure TaskView where
  task_id : String
  photo_path : String
  xmp_path : String
  created_at : Int
  requires_download : Bool
  file_package_path : Option String
  read_timeout : Int
deriving DecidableEq, Repr

/-- The response of a successful `/api/upload_result`. -/
structure UploadInfo where
  task_id : String
  file_size : Int
deriving DecidableEq, Repr

/-- A raised `HTTPException`, reduced to its status code. -/
structure HTTPError where
  status_code : Nat
deriving DecidableEq, Repr

/-- The module-level mutable state of the server: the `tasks`, `clients`
and `completed_tasks` dicts.  Python dicts preserve insertion order, so
each is an ordered association list (the entry's id field is the key). -/
structure ServerState where
  tasks : List Task
  clients : List ClientInfo
  completed_tasks : List Task
deriving DecidableEq, Repr

/-- Dict lookup `d[task_id]` / `task_id in d` over the ordered entries. -/
def lookupTask (ts : List Task) (id : String) : Option Task :=
  ts.find? (fun t => t.task_id = id)

/-- Dict lookup in the `clients` dict. -/
def lookupClient (cs : List ClientInfo) (w : String) : Option ClientInfo :=
  cs.find? (fun c => c.client_id = w)

/-- `clients[client_id].last_seen = now` (in-place update of one entry). -/
def touchClient (w : String) (now : Int) : List ClientInfo → List ClientInfo
  | [] => []
  | c :: rest =>
      if c.client_id = w then { c with last_seen := now } :: rest
      else c :: touchClient w now rest

/-- In-place mutation of the dict entry with key `id` (dict assignment to
an existing key keeps its position). -/
def updateTask (id : String) (t' : Task) : List Task → List Task
  | [] => []
  | t :: rest => if t.task_id = id then t' :: rest else t :: updateTask id t' rest

/-- `del tasks[id]`. -/
def removeTask (id : String) : List Task → List Task
  | [] => []
  | t :: rest => if t.task_id = id then rest else t :: removeTask id rest

/-- `completed_tasks[t'.task_id] = t'`: overwrite in place if the key is
present, otherwise append. -/
def upsertTask (t' : Task) : List Task → List Task
  | [] => [t']
  | t :: rest =>
      if t.task_id = t'.task_id then t' :: rest else t :: upsertTask t' rest

/-- One iteration of `get_task`'s scan loop: keep the running best
(`available_task`, whose `created_at` is the running `earliest_time`),
replace it when a PENDING task with strictly smaller `created_at` shows up
(the initial `earliest_time` is `inf`, so any PENDING task beats `none`). -/
def scanStep (acc : Option Task) (t : Task) : Option Task :=
  match acc with
  | none => if t.status = TaskStatus.pending then some t else none
  | some a =>
      if t.status = TaskStatus.pending ∧ t.created_at < a.created_at then some t
      else some a

/-- The FIFO scan of `get_task` over `tasks.values()` in insertion order. -/
def findAvailableTask (ts : List Task) : Option Task :=
  ts.foldl scanStep none

/-- The PENDING sublist of the store, in scan (insertion) order. -/
def pendingTasks (ts : List Task) : List Task :=
  ts.filter (fun t => t.status = TaskStatus.pending)

/-- The comparison the scan applies between the running best and a PENDING
candidate: replace only on strictly smaller `created_at`. -/
def pickBetter (a t : Task) : Task :=
  if t.created_at < a.created_at then t else a

/-- The response dict built by `get_task` from the claimed task. -/
def taskSnapshot (t : Task) : TaskView :=
  { task_id := t.task_id
    photo_path := t.photo_path
    xmp_path := t.xmp_path
    created_at := t.created_at
    requires_download := t.requires_download
    file_package_path := t.file_package_path
    read_timeout := t.read_timeout }

/-- `GET /api/get_task/{client_id}`: reject unregistered clients with 403;
otherwise, under the lock, touch the client's `last_seen`, pick the
earliest-created PENDING task, transition it to READING with this owner and
a fresh `read_at`, and return a snapshot (or an empty dict, `none`). -/
def get_task (client_id : String) (now : Int) (s : ServerState) :
    Except HTTPError (Option TaskView) × ServerState :=
  match lookupClient s.clients client_id with
  | none => (Except.error ⟨403⟩, s)
  | some _ =>
      let cs := touchClient client_id now s.clients
      match findAvailableTask s.tasks with
      | none => (Except.ok none, { s with clients := cs })
      | some t =>
          let t' := { t with
            status := TaskStatus.reading
            client_id := some client_id
            read_at := some now }
          (Except.ok (some (taskSnapshot t')),
           { s with clients := cs, tasks := updateTask t.task_id t' s.tasks })

/-- `POST /api/start_processing/{task_id}`: 404 unknown id, 403 ownership
mismatch, 400 wrong status, else READING → PROCESSING. -/
def start_processing (task_id : String) (req_client : String) (s : ServerState) :
    Except HTTPError Unit × ServerState :=
  match lookupTask s.tasks task_id with
  | none => (Except.error ⟨404⟩, s)
  | some t =>
      if t.client_id ≠ some req_client then (Except.error ⟨403⟩, s)
      else if t.status ≠ TaskStatus.reading then (Except.error ⟨400⟩, s)
      else
        (Except.ok (),
         { s with tasks := updateTask task_id { t with status := TaskStatus.processing } s.tasks })

/-- `POST /api/report_result`: 404 unknown id, 403 ownership mismatch, else
stamp `result`, set COMPLETED/FAILED by the `success` flag, and move the
task from `tasks` to `completed_tasks` — all inside the one lock hold. -/
def report_result (r : TaskResult) (now : Int) (s : ServerState) :
    Except HTTPError Unit × ServerState :=
  match lookupTask s.tasks r.task_id with
  | none => (Except.error ⟨404⟩, s)
  | some t =>
      if t.client_id ≠ some r.client_id then (Except.error ⟨403⟩, s)
      else
        let t' := { t with
          status := if r.success then TaskStatus.completed else TaskStatus.failed
          result := some { success := some r.success
                           elapsed_time := some r.elapsed_time
                           error := some r.error
                           result_data := some r.result_data
                           completed_at := some now } }
        (Except.ok (),
         { s with tasks := removeTask r.task_id s.tasks
                  completed_tasks := upsertTask t' s.completed_tasks })

/-- `POST /api/upload_result`: 404 unless the task id is in
`completed_tasks` (the only gate the handler has); then attach the upload
metadata to the task's `result` dict (creating it empty if absent).  The
file write, atomic rename and existence/size re-verification are modelled
as a successful write of `file_size` bytes. -/
def upload_result (task_id : String) (now : Int) (file_size : Int) (s : ServerState) :
    Except HTTPError UploadInfo × ServerState :=
  match lookupTask s.completed_tasks task_id with
  | none => (Except.error ⟨404⟩, s)
  | some t =>
      let base := t.result.getD {}
      let res := { base with
        processed_image_path := some (task_id ++ "/processed.jpg")
        upload_timestamp := some now
        file_size := some file_size }
      (Except.ok ⟨task_id, file_size⟩,
       { s with completed_tasks := updateTask task_id { t with result := some res } s.completed_tasks })

/-- The reaper's READING-timeout test: `task.read_at and
current_time - task.read_at > task.read_timeout` — note Python truthiness,
under which a `read_at` of `0` is falsy and skipped. -/
def readExpired (now : Int) (t : Task) : Bool :=
  match t.read_at with
  | none => false
  | some r => decide (r ≠ 0 ∧ now - r > t.read_timeout)

/-- First reaper pass: a timed-out READING task goes back to PENDING with
owner and `read_at` cleared. -/
def reapReadStep (now : Int) (t : Task) : Task :=
  if t.status = TaskStatus.reading ∧ readExpired now t then
    { t with status := TaskStatus.pending, client_id := none, read_at := none }
  else t

/-- Second reaper pass: a PROCESSING task whose *creation* lies more than
1800 s in the past goes back to PENDING with owner and `read_at` cleared. -/
def reapProcStep (now : Int) (t : Task) : Task :=
  if t.status = TaskStatus.processing ∧ now - t.created_at > 1800 then
    { t with status := TaskStatus.pending, client_id := none, read_at := none }
  else t

/-- One sweep of `cleanup_old_tasks`: under the lock, reset timed-out
READING tasks, then reset stale PROCESSING tasks; afterwards purge clients
whose `last_seen` lies more than 600 s in the past. -/
def cleanup_sweep (now : Int) (s : ServerState) : ServerState :=
  { s with
    tasks := (s.tasks.map (reapReadStep now)).map (reapProcStep now)
    clients := s.clients.filter (fun c => ¬ now - c.last_seen > 600) }

/-- The snapshots handed out by a sequence of `get_task` calls
(`(client_id, now)` pairs), executed back to back on the store. -/
def claimOutputs : List (String × Int) → ServerState → List TaskView
  | [], _ => []
  | (c, n) :: ops, s =>
      match get_task c n s with
      | (Except.ok (some v), s') => v :: claimOutputs ops s'
      | (_, s') => claimOutputs ops s'

end LrcServer

namespace LrcClient

/-- `sub in s` for strings, on character lists. -/
def hasSub (pat : List Char) : List Char → Bool
  | [] => pat.isEmpty
  | c :: rest => pat.isPrefixOf (c :: rest) || hasSub pat rest

/-- Helper for `countOcc`: scan one character at a time; `skip` is the
number of characters still covered by the previous match (inside which no
new match may start, making the count non-overlapping). -/
def countOccAux (pat : List Char) : List Char → Nat → Nat
  | [], _ => 0
  | c :: rest, skip =>
      if skip > 0 then countOccAux pat rest (skip - 1)
      else if pat ≠ [] ∧ pat.isPrefixOf (c :: rest) then
        countOccAux pat rest (pat.length - 1) + 1
      else countOccAux pat rest 0

/-- `s.count(sub)`: non-overlapping occurrence count, scanning left to
right and skipping over each whole match. -/
def countOcc (pat s : List Char) : Nat :=
  countOccAux pat s 0

/-- `'MaskGroupBasedCorrections'`. -/
def maskGroupMarker : List Char := "MaskGroupBasedCorrections".toList

/-- `'What = "Mask/Image"'`. -/
def maskImageMarker : List Char := "What = \"Mask/Image\"".toList

/-- The `complex_operations` marker list. -/
def complexMarkers : List (List Char) :=
  [("LocalizedCorrections").toList,
   ("CircularGradientBasedCorrections").toList,
   ("GradientBasedCorrections").toList,
   ("RetouchAreas").toList]

/-- The timeout knobs of `LightroomTaskClient.__init__` that
`calculate_processing_timeout` reads. -/
structure ClientConfig where
  base_processing_timeout : Int := 5
  mask_increment_seconds : Int := 2
  complex_increment_seconds : Int := 3
  max_timeout_mask : Int := 120
  max_timeout_complex : Int := 60
deriving DecidableEq, Repr

/-- `calculate_processing_timeout`, applied to the lua config content
(file reading and its exception fallback elided — the content is given):
the mask branch returns `min(base + count·mask_increment, mask_cap)`, the
complex branch `min(base + n·complex_increment, complex_cap)`, else the
base timeout. -/
def calculate_processing_timeout (cfg : ClientConfig) (lua_content : List Char) : Int :=
  let base := cfg.base_processing_timeout
  if hasSub maskGroupMarker lua_content then
    let actual_mask_count : Int := countOcc maskImageMarker lua_content
    min (base + actual_mask_count * cfg.mask_increment_seconds) cfg.max_timeout_mask
  else
    let complex_count : Int := (complexMarkers.filter (fun p => hasSub p lua_content)).length
    if complex_count > 0 then
      min (base + complex_count * cfg.complex_increment_seconds) cfg.max_timeout_complex
    else base

end LrcClient

namespace LrcServer

/-- A registered client, last seen at time 100. -/
def exClient : ClientInfo := { client_id := "w1", last_seen := 100 }

/-- A fresh PENDING task, created at 5. -/
def exTaskA : Task := { task_id := "a", photo_path := "pa", xmp_path := "xa", created_at := 5 }

/-- An older PENDING task, created at 3. -/
def exTaskB : Task := { task_id := "b", photo_path := "pb", xmp_path := "xb", created_at := 3 }

/-- A store with two PENDING tasks and one registered client. -/
def exState : ServerState :=
  { tasks := [exTaskA, exTaskB], clients := [exClient], completed_tasks := [] }

/-- A READING task owned by `"w1"`, claimed at time 100. -/
def exTaskR : Task :=
  { task_id := "r1", photo_path := "pr", xmp_path := "xr", created_at := 40
    status := TaskStatus.reading, client_id := some "w1", read_at := some 100 }

/-- A PROCESSING task owned by `"w1"`, created at time 60. -/
def exTaskP : Task :=
  { task_id := "p1", photo_path := "pp", xmp_path := "xp", created_at := 60
    status := TaskStatus.processing, client_id := some "w1", read_at := some 70 }

/-- A store with one READING and one PROCESSING task. -/
def exStateRP : ServerState :=
  { tasks := [exTaskR, exTaskP], clients := [exClient], completed_tasks := [] }

/-- An archived FAILED task, as produced by a failure report. -/
def exTaskF : Task :=
  { task_id := "f1", photo_path := "pf", xmp_path := "xf", created_at := 10
    status := TaskStatus.failed, client_id := some "w1"
    result := some { success := some false, elapsed_time := some 2
                     error := some (some "boom"), result_data := some none
                     completed_at := some 20 } }

/-- A store whose archive holds only the FAILED task `"f1"`. -/
def exStateArchive : ServerState :=
  { tasks := [], clients := [], completed_tasks := [exTaskF] }

/-- The report body `"w1"` sends for the PROCESSING task `"p1"`. -/
def exReport : TaskResult :=
  { task_id := "p1", client_id := "w1", success := true, elapsed_time := 7 }

/-- A READING task owned by `"w1"`, claimed at 995 with the lease still
fresh at time 1000 (while the owner's registration is already stale). -/
def exTaskC10 : Task :=
  { task_id := "t10", photo_path := "pt", xmp_path := "xt", created_at := 900
    status := TaskStatus.reading, client_id := some "w1", read_at := some 995 }

/-- A store where `"w1"`'s registration is 900 s old at time 1000. -/
def exStateC10 : ServerState :=
  { tasks := [exTaskC10], clients := [exClient], completed_tasks := [] }

end LrcServer

namespace LrcServer

theorem lookupTask_eq_none {ts : List Task} {id : String}
    (h : ∀ t ∈ ts, t.task_id ≠ id) : lookupTask ts id = none := by
  apply List.find?_eq_none.mpr
  intro t ht
  simpa using h t ht

theorem lookupTask_mem {ts : List Task} {id : String} {t : Task}
    (h : lookupTask ts id = some t) : t ∈ ts :=
  List.mem_of_find?_eq_some h

theorem lookupTask_id {ts : List Task} {id : String} {t : Task}
    (h : lookupTask ts id = some t) : t.task_id = id := by
  simpa using List.find?_some h

theorem map_taskId_updateTask {id : String} {t' : Task} (ht' : t'.task_id = id)
    (ts : List Task) : (updateTask id t' ts).map Task.task_id = ts.map Task.task_id := by
  induction ts with
  | nil => rfl
  | cons t rest ih =>
      by_cases h : t.task_id = id
      · simp [updateTask, h, ht']
      · simp [updateTask, h, ih]

theorem mem_updateTask_nodup {ts : List Task} (hN : (ts.map Task.task_id).Nodup)
    {id : String} {t' u : Task} (hu : u ∈ updateTask id t' ts) :
    u = t' ∨ (u ∈ ts ∧ u.task_id ≠ id) := by
  induction ts with
  | nil => simp [updateTask] at hu
  | cons t rest ih =>
      simp only [List.map_cons, List.nodup_cons] at hN
      by_cases h : t.task_id = id
      · simp only [updateTask, if_pos h, List.mem_cons] at hu
        rcases hu with h1 | h1
        · exact Or.inl h1
        · refine Or.inr ⟨List.mem_cons_of_mem _ h1, fun hid => ?_⟩
          exact hN.1 (by rw [h, ← hid]; exact List.mem_map_of_mem _ h1)
      · simp only [updateTask, if_neg h, List.mem_cons] at hu
        rcases hu with h1 | h1
        · exact Or.inr ⟨by rw [h1]; exact List.mem_cons_self _ _, by rw [h1]; exact h⟩
        · rcases ih hN.2 h1 with h2 | h2
          · exact Or.inl h2
          · exact Or.inr ⟨List.mem_cons_of_mem _ h2.1, h2.2⟩

theorem lookupTask_updateTask_self {ts : List Task} (hN : (ts.map Task.task_id).Nodup)
    {t t' : Task} (ht : t ∈ ts) (hid : t'.task_id = t.task_id) :
    lookupTask (updateTask t.task_id t' ts) t.task_id = some t' := by
  induction ts with
  | nil => cases ht
  | cons x rest ih =>
      simp only [List.map_cons, List.nodup_cons] at hN
      by_cases h : x.task_id = t.task_id
      · have he : updateTask t.task_id t' (x :: rest) = t' :: rest := by
          simp [updateTask, h]
        rw [he, lookupTask, List.find?_cons_of_pos _ (by simpa using hid)]
      · have ht2 : t ∈ rest := by
          rcases List.mem_cons.mp ht with h1 | h1
          · exact absurd (by rw [h1]) h
          · exact h1
        have he : updateTask t.task_id t' (x :: rest) = x :: updateTask t.task_id t' rest := by
          simp [updateTask, h]
        rw [he, lookupTask, List.find?_cons_of_neg _ (by simpa using h)]
        exact ih hN.2 ht2

theorem mem_updateTask_of_ne {ts : List Task} {id : String} {t' u : Task}
    (hu : u ∈ ts) (hne : u.task_id ≠ id) : u ∈ updateTask id t' ts := by
  induction ts with
  | nil => cases hu
  | cons x rest ih =>
      rcases List.mem_cons.mp hu with h1 | h1
      · have hx : ¬ x.task_id = id := by rw [← h1]; exact hne
        simp only [updateTask, if_neg hx]
        rw [h1]; exact List.mem_cons_self _ _
      · by_cases h : x.task_id = id
        · simp only [updateTask, if_pos h]
          exact List.mem_cons_of_mem _ h1
        · simp only [updateTask, if_neg h]
          exact List.mem_cons_of_mem _ (ih h1)

theorem lookupTask_removeTask_self {ts : List Task} (hN : (ts.map Task.task_id).Nodup)
    (id : String) : lookupTask (removeTask id ts) id = none := by
  induction ts with
  | nil => rfl
  | cons x rest ih =>
      simp only [List.map_cons, List.nodup_cons] at hN
      by_cases h : x.task_id = id
      · have he : removeTask id (x :: rest) = rest := by simp [removeTask, h]
        rw [he]
        apply lookupTask_eq_none
        intro t ht hid
        exact hN.1 (by rw [h, ← hid]; exact List.mem_map_of_mem _ ht)
      · have he : removeTask id (x :: rest) = x :: removeTask id rest := by
          simp [removeTask, h]
        rw [he, lookupTask, List.find?_cons_of_neg _ (by simpa using h)]
        exact ih hN.2

theorem lookupTask_upsertTask_self (t' : Task) (ts : List Task) :
    lookupTask (upsertTask t' ts) t'.task_id = some t' := by
  induction ts with
  | nil =>
      simp only [upsertTask, lookupTask]
      exact List.find?_cons_of_pos _ (by simp)
  | cons x rest ih =>
      by_cases h : x.task_id = t'.task_id
      · have he : upsertTask t' (x :: rest) = t' :: rest := by simp [upsertTask, h]
        rw [he, lookupTask, List.find?_cons_of_pos _ (by simp)]
      · have he : upsertTask t' (x :: rest) = x :: upsertTask t' rest := by
          simp [upsertTask, h]
        rw [he, lookupTask, List.find?_cons_of_neg _ (by simpa using h)]
        exact ih

theorem lookupTask_map_of_presId {f : Task → Task} (hf : ∀ u, (f u).task_id = u.task_id)
    {ts : List Task} (hN : (ts.map Task.task_id).Nodup) {t : Task} (ht : t ∈ ts) :
    lookupTask (ts.map f) t.task_id = some (f t) := by
  induction ts with
  | nil => cases ht
  | cons x rest ih =>
      simp only [List.map_cons, List.nodup_cons] at hN
      rcases List.mem_cons.mp ht with h1 | h1
      · subst h1
        rw [List.map_cons, lookupTask, List.find?_cons_of_pos _ (by simp [hf])]
      · have hne : ¬ (f x).task_id = t.task_id := by
          rw [hf]
          intro he
          exact hN.1 (he ▸ List.mem_map_of_mem _ h1)
        rw [List.map_cons, lookupTask, List.find?_cons_of_neg _ (by simpa using hne)]
        exact ih hN.2 h1

theorem map_taskId_map_of_presId {f : Task → Task}
    (hf : ∀ u, (f u).task_id = u.task_id) (ts : List Task) :
    (ts.map f).map Task.task_id = ts.map Task.task_id := by
  induction ts with
  | nil => rfl
  | cons x rest ih => simp [hf, ih]

theorem reapReadStep_id (now : Int) (t : Task) :
    (reapReadStep now t).task_id = t.task_id := by
  unfold reapReadStep; split <;> rfl

theorem reapProcStep_id (now : Int) (t : Task) :
    (reapProcStep now t).task_id = t.task_id := by
  unfold reapProcStep; split <;> rfl

end LrcServer

namespace LrcServer

theorem scanStep_some (a t : Task) :
    scanStep (some a) t =
      some (if t.status = TaskStatus.pending then pickBetter a t else a) := by
  unfold scanStep pickBetter
  by_cases hp : t.status = TaskStatus.pending <;>
    by_cases hc : t.created_at < a.created_at <;> simp [hp, hc]

theorem foldl_scanStep_some (ts : List Task) (a : Task) :
    ts.foldl scanStep (some a) = some ((pendingTasks ts).foldl pickBetter a) := by
  induction ts generalizing a with
  | nil => rfl
  | cons x rest ih =>
      rw [List.foldl_cons, scanStep_some]
      by_cases hp : x.status = TaskStatus.pending
      · simp only [if_pos hp, pendingTasks, List.filter_cons, decide_eq_true_eq, hp,
          if_true, List.foldl_cons]
        exact ih (pickBetter a x)
      · simp only [if_neg hp, pendingTasks, List.filter_cons, decide_eq_true_eq, hp,
          if_false, ih]

theorem foldl_scanStep_none (ts : List Task) :
    ts.foldl scanStep none =
      match pendingTasks ts with
      | [] => none
      | p :: r => some (r.foldl pickBetter p) := by
  induction ts with
  | nil => rfl
  | cons x rest ih =>
      rw [List.foldl_cons]
      by_cases hp : x.status = TaskStatus.pending
      · have hs : scanStep none x = some x := by simp [scanStep, hp]
        rw [hs, foldl_scanStep_some]
        simp [pendingTasks, List.filter_cons, hp]
      · have hs : scanStep none x = none := by simp [scanStep, hp]
        rw [hs, ih]
        simp [pendingTasks, List.filter_cons, hp]

theorem foldl_pickBetter_le_init (l : List Task) (a : Task) :
    (l.foldl pickBetter a).created_at ≤ a.created_at := by
  induction l generalizing a with
  | nil => exact le_refl _
  | cons x l ih =>
      rw [List.foldl_cons]
      refine le_trans (ih (pickBetter a x)) ?_
      unfold pickBetter
      split
      · exact le_of_lt (by assumption)
      · exact le_refl _

theorem foldl_pickBetter_le_mem (l : List Task) (a : Task) (u : Task) (hu : u ∈ l) :
    (l.foldl pickBetter a).created_at ≤ u.created_at := by
  induction l generalizing a with
  | nil => cases hu
  | cons x l ih =>
      rw [List.foldl_cons]
      rcases List.mem_cons.mp hu with h1 | h1
      · subst h1
        refine le_trans (foldl_pickBetter_le_init _ _) ?_
        unfold pickBetter
        split
        · exact le_refl _
        · exact not_lt.mp (by assumption)
      · exact ih _ h1

theorem foldl_pickBetter_mem (l : List Task) (a : Task) :
    l.foldl pickBetter a = a ∨ l.foldl pickBetter a ∈ l := by
  induction l generalizing a with
  | nil => exact Or.inl rfl
  | cons x l ih =>
      rw [List.foldl_cons]
      rcases ih (pickBetter a x) with h | h
      · rw [h]
        unfold pickBetter
        split
        · exact Or.inr (List.mem_cons_self _ _)
        · exact Or.inl rfl
      · exact Or.inr (List.mem_cons_of_mem _ h)

theorem find?_foldl_pickBetter (l : List Task) (a : Task) :
    (a :: l).find? (fun u => u.created_at = (l.foldl pickBetter a).created_at) =
      some (l.foldl pickBetter a) := by
  induction l generalizing a with
  | nil => exact List.find?_cons_of_pos _ (by simp)
  | cons x l ih =>
      rw [List.foldl_cons]
      by_cases hx : x.created_at < a.created_at
      · have hb : pickBetter a x = x := by unfold pickBetter; simp [hx]
        rw [hb]
        have hpa : ¬ (a.created_at = (l.foldl pickBetter x).created_at) := by
          intro he
          have h1 : (l.foldl pickBetter x).created_at ≤ x.created_at :=
            foldl_pickBetter_le_init l x
          rw [← he] at h1
          exact absurd (lt_of_le_of_lt h1 hx) (lt_irrefl _)
        rw [List.find?_cons_of_neg _ (by simpa using hpa)]
        exact ih x
      · have hb : pickBetter a x = a := by unfold pickBetter; simp [hx]
        rw [hb]
        have hIH := ih a
        by_cases hpa : a.created_at = (l.foldl pickBetter a).created_at
        · have h1 : (a :: l).find?
              (fun u => u.created_at = (l.foldl pickBetter a).created_at) = some a :=
            List.find?_cons_of_pos _ (by simpa using hpa)
          have hra : a = l.foldl pickBetter a := by
            rw [hIH] at h1
            exact (Option.some.inj h1).symm
          rw [List.find?_cons_of_pos _ (by simpa using hpa)]
          exact congrArg some hra
        · have hlt : (l.foldl pickBetter a).created_at < a.created_at :=
            lt_of_le_of_ne (foldl_pickBetter_le_init l a) (fun he => hpa he.symm)
          have hpx : ¬ (x.created_at = (l.foldl pickBetter a).created_at) := by
            intro he
            have h2 : a.created_at ≤ x.created_at := not_lt.mp hx
            rw [he] at h2
            exact absurd (lt_of_le_of_lt h2 hlt) (lt_irrefl _)
          rw [List.find?_cons_of_neg _ (by simpa using hpa),
            List.find?_cons_of_neg _ (by simpa using hpx)]
          rw [List.find?_cons_of_neg _ (by simpa using hpa)] at hIH
          exact hIH

theorem findAvailableTask_spec {ts : List Task} {t : Task}
    (h : findAvailableTask ts = some t) :
    t ∈ ts ∧ t.status = TaskStatus.pending ∧
      (∀ u ∈ ts, u.status = TaskStatus.pending → t.created_at ≤ u.created_at) ∧
      (pendingTasks ts).find? (fun u => u.created_at = t.created_at) = some t := by
  cases hps : pendingTasks ts with
  | nil =>
      rw [findAvailableTask, foldl_scanStep_none, hps] at h
      cases h
  | cons p r =>
      rw [findAvailableTask, foldl_scanStep_none, hps] at h
      have ht : r.foldl pickBetter p = t := Option.some.inj h
      have hmemp : t ∈ pendingTasks ts := by
        rw [hps, ← ht]
        rcases foldl_pickBetter_mem r p with h1 | h1
        · rw [h1]; exact List.mem_cons_self _ _
        · exact List.mem_cons_of_mem _ h1
      have hmem : t ∈ ts ∧ t.status = TaskStatus.pending := by
        have := List.mem_filter.mp hmemp
        exact ⟨this.1, by simpa using this.2⟩
      refine ⟨hmem.1, hmem.2, ?_, ?_⟩
      · intro u hu hup
        have hup2 : u ∈ pendingTasks ts := List.mem_filter.mpr ⟨hu, by simpa using hup⟩
        rw [hps] at hup2
        rcases List.mem_cons.mp hup2 with h1 | h1
        · rw [← ht, h1]; exact foldl_pickBetter_le_init r p
        · rw [← ht]; exact foldl_pickBetter_le_mem r p u h1
      · rw [← ht]
        exact find?_foldl_pickBetter r p

theorem findAvailableTask_eq_none {ts : List Task}
    (h : ∀ t ∈ ts, t.status ≠ TaskStatus.pending) : findAvailableTask ts = none := by
  have hps : pendingTasks ts = [] := by
    apply List.filter_eq_nil_iff.mpr
    intro t ht
    simpa using h t ht
  rw [findAvailableTask, foldl_scanStep_none, hps]

theorem findAvailableTask_isSome {ts : List Task} {t0 : Task}
    (ht0 : t0 ∈ ts) (hp : t0.status = TaskStatus.pending) :
    ∃ t, findAvailableTask ts = some t := by
  cases hps : pendingTasks ts with
  | nil =>
      exfalso
      have : t0 ∈ pendingTasks ts := List.mem_filter.mpr ⟨ht0, by simpa using hp⟩
      rw [hps] at this
      cases this
  | cons p r =>
      exact ⟨r.foldl pickBetter p, by rw [findAvailableTask, foldl_scanStep_none, hps]⟩

end LrcServer

namespace LrcServer

theorem mem_updateTask {ts : List Task} {id : String} {t' u : Task}
    (hu : u ∈ updateTask id t' ts) : u = t' ∨ u ∈ ts := by
  induction ts with
  | nil => simp [updateTask] at hu
  | cons x rest ih =>
      by_cases h : x.task_id = id
      · simp only [updateTask, if_pos h, List.mem_cons] at hu
        rcases hu with h1 | h1
        · exact Or.inl h1
        · exact Or.inr (List.mem_cons_of_mem _ h1)
      · simp only [updateTask, if_neg h, List.mem_cons] at hu
        rcases hu with h1 | h1
        · exact Or.inr (by rw [h1]; exact List.mem_cons_self _ _)
        · rcases ih h1 with h2 | h2
          · exact Or.inl h2
          · exact Or.inr (List.mem_cons_of_mem _ h2)

theorem get_task_of_unregistered {s : ServerState} {c : String} {now : Int}
    (h : lookupClient s.clients c = none) :
    get_task c now s = (Except.error ⟨403⟩, s) := by
  simp only [get_task, h]

theorem get_task_of_none_available {s : ServerState} {c : String} {now : Int}
    {ci : ClientInfo} (hc : lookupClient s.clients c = some ci)
    (hf : findAvailableTask s.tasks = none) :
    get_task c now s =
      (Except.ok none, { s with clients := touchClient c now s.clients }) := by
  simp only [get_task, hc, hf]

theorem get_task_of_some {s : ServerState} {c : String} {now : Int}
    {ci : ClientInfo} {t : Task} (hc : lookupClient s.clients c = some ci)
    (hf : findAvailableTask s.tasks = some t) :
    get_task c now s =
      (Except.ok (some (taskSnapshot { t with
          status := TaskStatus.reading, client_id := some c, read_at := some now })),
       { s with
         clients := touchClient c now s.clients
         tasks := updateTask t.task_id { t with
           status := TaskStatus.reading, client_id := some c, read_at := some now } s.tasks }) := by
  simp only [get_task, hc, hf]

theorem get_task_ids (c : String) (now : Int) (s : ServerState) :
    ((get_task c now s).2).tasks.map Task.task_id = s.tasks.map Task.task_id := by
  cases hc : lookupClient s.clients c with
  | none => rw [get_task_of_unregistered hc]
  | some ci =>
      cases hf : findAvailableTask s.tasks with
      | none => rw [get_task_of_none_available hc hf]
      | some t =>
          rw [get_task_of_some hc hf]
          dsimp only
          refine map_taskId_updateTask ?_ s.tasks
          rfl

theorem get_task_notPending (c : String) (now : Int) (s : ServerState) (id : String)
    (hnp : ∀ t ∈ s.tasks, t.task_id = id → t.status ≠ TaskStatus.pending) :
    ∀ u ∈ ((get_task c now s).2).tasks, u.task_id = id →
      u.status ≠ TaskStatus.pending := by
  cases hc : lookupClient s.clients c with
  | none => rw [get_task_of_unregistered hc]; exact hnp
  | some ci =>
      cases hf : findAvailableTask s.tasks with
      | none => rw [get_task_of_none_available hc hf]; exact hnp
      | some t =>
          rw [get_task_of_some hc hf]
          intro u hu hid
          rcases mem_updateTask hu with h1 | h1
          · rw [h1]; intro hcon; cases hcon
          · exact hnp u h1 hid

theorem get_task_some_inv {s s' : ServerState} {c : String} {now : Int} {v : TaskView}
    (hids : (s.tasks.map Task.task_id).Nodup)
    (hg : get_task c now s = (Except.ok (some v), s')) :
    (∃ t ∈ s.tasks, t.status = TaskStatus.pending ∧ t.task_id = v.task_id ∧
        lookupTask s'.tasks v.task_id = some { t with
          status := TaskStatus.reading, client_id := some c, read_at := some now }) ∧
    (∀ u ∈ s'.tasks, u.task_id = v.task_id → u.status ≠ TaskStatus.pending) := by
  cases hc : lookupClient s.clients c with
  | none =>
      rw [get_task_of_unregistered hc] at hg
      simp at hg
  | some ci =>
      cases hf : findAvailableTask s.tasks with
      | none =>
          rw [get_task_of_none_available hc hf] at hg
          simp at hg
      | some t =>
          rw [get_task_of_some hc hf] at hg
          simp only [Prod.mk.injEq, Except.ok.injEq, Option.some.injEq] at hg
          obtain ⟨hv, hs⟩ := hg
          obtain ⟨hmem, hp, _hmin, _hfind⟩ := findAvailableTask_spec hf
          have hvid : v.task_id = t.task_id := by rw [← hv]; rfl
          constructor
          · refine ⟨t, hmem, hp, hvid.symm, ?_⟩
            rw [hvid, ← hs]
            exact lookupTask_updateTask_self hids hmem rfl
          · intro u hu hid
            rw [← hs] at hu
            rcases mem_updateTask_nodup hids hu with h1 | h1
            · rw [h1]; intro hcon; cases hcon
            · exact absurd (hid.trans hvid) h1.2

theorem get_task_some_src {s s' : ServerState} {c : String} {now : Int} {v : TaskView}
    (hg : get_task c now s = (Except.ok (some v), s')) :
    ∃ t ∈ s.tasks, t.status = TaskStatus.pending ∧ t.task_id = v.task_id := by
  cases hc : lookupClient s.clients c with
  | none =>
      rw [get_task_of_unregistered hc] at hg
      simp at hg
  | some ci =>
      cases hf : findAvailableTask s.tasks with
      | none =>
          rw [get_task_of_none_available hc hf] at hg
          simp at hg
      | some t =>
          rw [get_task_of_some hc hf] at hg
          simp only [Prod.mk.injEq, Except.ok.injEq, Option.some.injEq] at hg
          obtain ⟨hv, _hs⟩ := hg
          obtain ⟨hmem, hp, _hmin, _hfind⟩ := findAvailableTask_spec hf
          exact ⟨t, hmem, hp, by rw [← hv]; rfl⟩

theorem claimOutputs_avoid (ops : List (String × Int)) (s : ServerState) (id : String)
    (hnp : ∀ t ∈ s.tasks, t.task_id = id → t.status ≠ TaskStatus.pending) :
    id ∉ (claimOutputs ops s).map TaskView.task_id := by
  induction ops generalizing s with
  | nil => simp [claimOutputs]
  | cons op ops ih =>
      obtain ⟨c, n⟩ := op
      rcases hg : get_task c n s with ⟨r, s2⟩
      have hnp2 : ∀ t ∈ s2.tasks, t.task_id = id → t.status ≠ TaskStatus.pending := by
        have := get_task_notPending c n s id hnp
        rw [hg] at this
        exact this
      cases r with
      | error e =>
          simp only [claimOutputs, hg]
          exact ih s2 hnp2
      | ok o =>
          cases o with
          | none =>
              simp only [claimOutputs, hg]
              exact ih s2 hnp2
          | some v =>
              simp only [claimOutputs, hg, List.map_cons, List.mem_cons]
              intro hcon
              rcases hcon with h1 | h1
              · rcases get_task_some_src hg with ⟨t, hmem, hp, hid⟩
                exact hnp t hmem (by rw [hid, ← h1]) hp
              · exact ih s2 hnp2 h1

end LrcServer

namespace LrcServer

theorem claimOutputs_nodup (ops : List (String × Int)) (s : ServerState)
    (hids : (s.tasks.map Task.task_id).Nodup) :
    ((claimOutputs ops s).map TaskView.task_id).Nodup := by
  induction ops generalizing s with
  | nil => simp [claimOutputs]
  | cons op ops ih =>
      obtain ⟨c, n⟩ := op
      rcases hg : get_task c n s with ⟨r, s2⟩
      have hids2 : (s2.tasks.map Task.task_id).Nodup := by
        have h2 := get_task_ids c n s
        rw [hg] at h2
        dsimp only at h2
        rw [h2]
        exact hids
      cases r with
      | error e =>
          simp only [claimOutputs, hg]
          exact ih s2 hids2
      | ok o =>
          cases o with
          | none =>
              simp only [claimOutputs, hg]
              exact ih s2 hids2
          | some v =>
              simp only [claimOutputs, hg, List.map_cons]
              refine List.nodup_cons.mpr ⟨?_, ih s2 hids2⟩
              exact claimOutputs_avoid ops s2 v.task_id (get_task_some_inv hids hg).2

/-- C1: in any serialized sequence of claim calls (the lock serializes the
interleaving), each job is handed out at most once: the snapshots returned
carry pairwise distinct job ids, because a successful claim atomically
moves the returned job from PENDING to READING with `client_id` set to the
claimer, so a later claim can never select it again (no reap runs in the
sequence). -/
theorem c1_each_job_claimed_once (s : ServerState)
    (hids : (s.tasks.map Task.task_id).Nodup) (ops : List (String × Int)) :
    ((claimOutputs ops s).map TaskView.task_id).Nodup ∧
    ∀ c n v s', get_task c n s = (Except.ok (some v), s') →
      ∃ t ∈ s.tasks, t.status = TaskStatus.pending ∧ t.task_id = v.task_id ∧
        lookupTask s'.tasks v.task_id = some { t with
          status := TaskStatus.reading, client_id := some c, read_at := some n } := by
  refine ⟨claimOutputs_nodup ops s hids, ?_⟩
  intro c n v s' hg
  exact (get_task_some_inv hids hg).1

theorem c1_each_job_claimed_once_witness :
    ((claimOutputs [("w1", 10), ("w1", 11), ("w1", 12)] exState).map
      TaskView.task_id).Nodup :=
  (c1_each_job_claimed_once exState (by decide) [("w1", 10), ("w1", 11), ("w1", 12)]).1

/-- C2: whenever some PENDING job exists and the caller is registered,
`get_task` returns (a snapshot of) the PENDING job with the smallest
`created_at`, ties broken by scan (insertion) order, transitions exactly
that job to READING with `client_id` set to the caller and `read_at` set to
the current time, and leaves every other job in the store. -/
theorem c2_claim_returns_fifo_min (s : ServerState) (c : String) (now : Int)
    (hreg : lookupClient s.clients c ≠ none)
    (hids : (s.tasks.map Task.task_id).Nodup)
    (t0 : Task) (ht0 : t0 ∈ s.tasks) (hp0 : t0.status = TaskStatus.pending) :
    ∃ t s',
      get_task c now s = (Except.ok (some (taskSnapshot { t with
        status := TaskStatus.reading, client_id := some c, read_at := some now })), s') ∧
      t ∈ s.tasks ∧ t.status = TaskStatus.pending ∧
      (∀ u ∈ s.tasks, u.status = TaskStatus.pending → t.created_at ≤ u.created_at) ∧
      (pendingTasks s.tasks).find? (fun u => u.created_at = t.created_at) = some t ∧
      lookupTask s'.tasks t.task_id = some { t with
        status := TaskStatus.reading, client_id := some c, read_at := some now } ∧
      (∀ u ∈ s.tasks, u.task_id ≠ t.task_id → u ∈ s'.tasks) := by
  cases hc : lookupClient s.clients c with
  | none => exact absurd hc hreg
  | some ci =>
      obtain ⟨t, hf⟩ := findAvailableTask_isSome ht0 hp0
      obtain ⟨hmem, hp, hmin, hfind⟩ := findAvailableTask_spec hf
      refine ⟨t, _, get_task_of_some hc hf, hmem, hp, hmin, hfind, ?_, ?_⟩
      · exact lookupTask_updateTask_self hids hmem rfl
      · intro u hu hne
        exact mem_updateTask_of_ne hu hne

theorem c2_claim_returns_fifo_min_witness :
    lookupClient exState.clients "w1" ≠ none ∧
    (get_task "w1" 10 exState).1 ≠ Except.ok none := by
  obtain ⟨t, s', hg, -, -, -, -, -, -⟩ :=
    c2_claim_returns_fifo_min exState "w1" 10 (by decide) (by decide)
      exTaskA (by decide) (by decide)
  refine ⟨by decide, ?_⟩
  rw [show (get_task "w1" 10 exState).1 = Except.ok (some (taskSnapshot { t with
    status := TaskStatus.reading, client_id := some "w1", read_at := some 10 })) from
    congrArg Prod.fst hg]
  intro hcon
  cases hcon

end LrcServer

namespace LrcServer

/-- C3: a successful `report_result` leaves the job in exactly one of the
two maps — gone from the active store, present in the archive — with
status COMPLETED when `success` is true and FAILED otherwise, and with the
`result` dict stamped.  Both the status transition and the move happen in
the one atomic step the handler performs under the lock, so no state in
which the job is in neither or both maps is ever observable. -/
theorem c3_report_result_archives (rr : TaskResult) (now : Int) (s s' : ServerState)
    (hids : (s.tasks.map Task.task_id).Nodup)
    (h : report_result rr now s = (Except.ok (), s')) :
    ∃ t, lookupTask s.tasks rr.task_id = some t ∧
      lookupTask s'.tasks rr.task_id = none ∧
      lookupTask s'.completed_tasks rr.task_id = some { t with
        status := if rr.success then TaskStatus.completed else TaskStatus.failed
        result := some { success := some rr.success, elapsed_time := some rr.elapsed_time
                         error := some rr.error, result_data := some rr.result_data
                         completed_at := some now } } := by
  cases hL : lookupTask s.tasks rr.task_id with
  | none =>
      simp only [report_result, hL] at h
      simp at h
  | some t =>
      simp only [report_result, hL] at h
      by_cases ho : t.client_id = some rr.client_id
      · rw [if_neg (not_not_intro ho), Prod.mk.injEq] at h
        obtain ⟨-, hs⟩ := h
        refine ⟨t, rfl, ?_, ?_⟩
        · rw [← hs]
          exact lookupTask_removeTask_self hids rr.task_id
        · rw [← hs, ← lookupTask_id hL]
          exact lookupTask_upsertTask_self _ s.completed_tasks
      · rw [if_pos ho] at h
        simp at h

theorem c3_report_result_archives_witness :
    lookupTask ((report_result exReport 50 exStateRP).2).tasks "p1" = none := by
  obtain ⟨t, -, hnone, -⟩ :=
    c3_report_result_archives exReport 50 exStateRP
      ((report_result exReport 50 exStateRP).2) (by decide) (by rfl)
  exact hnone

/-- C4: `start_processing` (confirm) and `report_result` reject a caller
that is not the job's current owner with 403 and leave the store untouched
(an owner of `none` after a reclaim mismatches every caller); confirm
additionally rejects an unknown id with 404 and a job in the wrong status
with 400, and only a READING job owned by the caller is moved to
PROCESSING, all other jobs staying in the store. -/
theorem c4_ownership_checks (s : ServerState) (tid w : String) (now : Int)
    (rr : TaskResult) (hr1 : rr.task_id = tid) (hr2 : rr.client_id = w)
    (hids : (s.tasks.map Task.task_id).Nodup) :
    (lookupTask s.tasks tid = none →
       start_processing tid w s = (Except.error ⟨404⟩, s)) ∧
    (∀ t, lookupTask s.tasks tid = some t → t.client_id ≠ some w →
       start_processing tid w s = (Except.error ⟨403⟩, s) ∧
       report_result rr now s = (Except.error ⟨403⟩, s)) ∧
    (∀ t, lookupTask s.tasks tid = some t → t.client_id = some w →
       t.status ≠ TaskStatus.reading →
       start_processing tid w s = (Except.error ⟨400⟩, s)) ∧
    (∀ t, lookupTask s.tasks tid = some t → t.client_id = some w →
       t.status = TaskStatus.reading →
       ∃ s', start_processing tid w s = (Except.ok (), s') ∧
         lookupTask s'.tasks tid = some { t with status := TaskStatus.processing } ∧
         ∀ u ∈ s.tasks, u.task_id ≠ tid → u ∈ s'.tasks) := by
  subst hr1
  subst hr2
  refine ⟨?_, ?_, ?_, ?_⟩
  · intro hL
    simp only [start_processing, hL]
  · intro t hL hown
    constructor
    · simp only [start_processing, hL]
      rw [if_pos hown]
    · simp only [report_result, hL]
      rw [if_pos hown]
  · intro t hL hown hst
    simp only [start_processing, hL]
    rw [if_neg (not_not_intro hown), if_pos hst]
  · intro t hL hown hst
    refine ⟨{ s with tasks := updateTask rr.task_id { t with status := TaskStatus.processing } s.tasks }, ?_, ?_, ?_⟩
    · simp only [start_processing, hL]
      rw [if_neg (not_not_intro hown), if_neg (not_not_intro hst)]
    · rw [← lookupTask_id hL]
      exact lookupTask_updateTask_self hids (lookupTask_mem hL) rfl
    · intro u hu hne
      exact mem_updateTask_of_ne hu hne

theorem c4_ownership_checks_witness :
    start_processing "r1" "w2" exStateRP = (Except.error ⟨403⟩, exStateRP) ∧
    (start_processing "r1" "w1" exStateRP).1 = Except.ok () := by
  have h := c4_ownership_checks exStateRP "r1" "w2" 0
    { task_id := "r1", client_id := "w2", success := true, elapsed_time := 0 }
    rfl rfl (by decide)
  have h2 := c4_ownership_checks exStateRP "r1" "w1" 0
    { task_id := "r1", client_id := "w1", success := true, elapsed_time := 0 }
    rfl rfl (by decide)
  refine ⟨(h.2.1 exTaskR (by decide) (by decide)).1, ?_⟩
  obtain ⟨s', he, -, -⟩ := h2.2.2.2 exTaskR (by decide) (by decide) (by decide)
  rw [congrArg Prod.fst he]

/-- C9: a claim from an unregistered worker fails with 403 and changes
nothing; a claim from a registered worker with no PENDING job in the store
is answered with a normal success carrying an empty body (`Except.ok
none`), never an error status. -/
theorem c9_claim_unregistered_and_empty (s : ServerState) (c : String) (now : Int) :
    (lookupClient s.clients c = none →
       get_task c now s = (Except.error ⟨403⟩, s)) ∧
    (lookupClient s.clients c ≠ none →
       (∀ t ∈ s.tasks, t.status ≠ TaskStatus.pending) →
       (get_task c now s).1 = Except.ok none) := by
  constructor
  · exact get_task_of_unregistered
  · intro hreg hnp
    cases hc : lookupClient s.clients c with
    | none => exact absurd hc hreg
    | some ci =>
        rw [get_task_of_none_available hc (findAvailableTask_eq_none hnp)]

theorem c9_claim_unregistered_and_empty_witness :
    get_task "zz" 5 exStateRP = (Except.error ⟨403⟩, exStateRP) ∧
    (get_task "w1" 5 exStateRP).1 = Except.ok none := by
  have h := c9_claim_unregistered_and_empty exStateRP "zz" 5
  have h2 := c9_claim_unregistered_and_empty exStateRP "w1" 5
  exact ⟨h.1 (by decide), h2.2 (by decide) (by decide)⟩

end LrcServer

namespace LrcServer

theorem cleanup_sweep_lookup {s : ServerState} {now : Int} {t : Task}
    (hids : (s.tasks.map Task.task_id).Nodup) (ht : t ∈ s.tasks) :
    lookupTask (cleanup_sweep now s).tasks t.task_id =
      some (reapProcStep now (reapReadStep now t)) := by
  show lookupTask ((s.tasks.map (reapReadStep now)).map (reapProcStep now)) t.task_id = _
  rw [List.map_map]
  have hf : ∀ u, ((reapProcStep now ∘ reapReadStep now) u).task_id = u.task_id := by
    intro u
    rw [Function.comp_apply, reapProcStep_id, reapReadStep_id]
  exact lookupTask_map_of_presId hf hids ht

theorem cleanup_sweep_ids (now : Int) (s : ServerState) :
    (cleanup_sweep now s).tasks.map Task.task_id = s.tasks.map Task.task_id := by
  show ((s.tasks.map (reapReadStep now)).map (reapProcStep now)).map Task.task_id = _
  rw [map_taskId_map_of_presId (reapProcStep_id now),
    map_taskId_map_of_presId (reapReadStep_id now)]

/-- C5: a READING job whose (positive) `read_at` timestamp lies more than
its `read_timeout` in the past is reset by the reaper sweep to PENDING
with `client_id` and `read_at` cleared; afterwards, whenever the job is
the one the FIFO scan selects, a claim by any registered worker returns
the very same job id with a fresh `read_at`. -/
theorem c5_read_lease_reclaim (s : ServerState) (now : Int) (t : Task) (r : Int)
    (hids : (s.tasks.map Task.task_id).Nodup)
    (ht : t ∈ s.tasks) (hst : t.status = TaskStatus.reading)
    (hr : t.read_at = some r) (hrpos : 0 < r)
    (hexp : now - r > t.read_timeout) :
    lookupTask (cleanup_sweep now s).tasks t.task_id =
      some { t with status := TaskStatus.pending, client_id := none, read_at := none } ∧
    ∀ w' now' u, lookupClient (cleanup_sweep now s).clients w' ≠ none →
      findAvailableTask (cleanup_sweep now s).tasks = some u → u.task_id = t.task_id →
      ∃ s'', get_task w' now' (cleanup_sweep now s) =
          (Except.ok (some (taskSnapshot { u with
            status := TaskStatus.reading, client_id := some w', read_at := some now' })), s'') ∧
        lookupTask s''.tasks t.task_id = some { u with
          status := TaskStatus.reading, client_id := some w', read_at := some now' } := by
  have hread : reapReadStep now t =
      { t with status := TaskStatus.pending, client_id := none, read_at := none } := by
    unfold reapReadStep
    rw [if_pos]
    refine ⟨hst, ?_⟩
    unfold readExpired
    rw [hr]
    simpa using ⟨ne_of_gt hrpos, hexp⟩
  have hproc : reapProcStep now
      ({ t with status := TaskStatus.pending, client_id := none, read_at := none }) =
      { t with status := TaskStatus.pending, client_id := none, read_at := none } := by
    unfold reapProcStep
    rw [if_neg]
    intro hcon
    cases hcon.1
  constructor
  · rw [cleanup_sweep_lookup hids ht, hread, hproc]
  · intro w' now' u hw hu huid
    have hids2 : ((cleanup_sweep now s).tasks.map Task.task_id).Nodup := by
      rw [cleanup_sweep_ids]
      exact hids
    cases hc : lookupClient (cleanup_sweep now s).clients w' with
    | none => exact absurd hc hw
    | some ci =>
        refine ⟨_, get_task_of_some hc hu, ?_⟩
        rw [← huid]
        exact lookupTask_updateTask_self hids2 (findAvailableTask_spec hu).1 rfl

theorem c5_read_lease_reclaim_witness :
    lookupTask (cleanup_sweep 200 exStateRP).tasks "r1" =
      some { exTaskR with
        status := TaskStatus.pending, client_id := none, read_at := none } ∧
    ((get_task "w1" 201 (cleanup_sweep 200 exStateRP)).1).isOk = true := by
  have h := c5_read_lease_reclaim exStateRP 200 exTaskR 100 (by decide) (by decide)
    (by decide) (by decide) (by decide) (by decide)
  refine ⟨h.1, ?_⟩
  obtain ⟨s'', hg, -⟩ := h.2 "w1" 201
    { exTaskR with status := TaskStatus.pending, client_id := none, read_at := none }
    (by decide) (by decide) (by decide)
  rw [congrArg Prod.fst hg]
  rfl

/-- C6: the reaper resets a PROCESSING job to PENDING (clearing owner and
`read_at`) exactly when more than 1800 s have elapsed since the job's
`created_at` — staleness is measured from creation, not from the moment
processing started. -/
theorem c6_processing_reaped_iff_stale (s : ServerState) (now : Int) (t : Task)
    (hids : (s.tasks.map Task.task_id).Nodup)
    (ht : t ∈ s.tasks) (hst : t.status = TaskStatus.processing) :
    lookupTask (cleanup_sweep now s).tasks t.task_id =
      some (if now - t.created_at > 1800 then
        { t with status := TaskStatus.pending, client_id := none, read_at := none }
      else t) := by
  have hread : reapReadStep now t = t := by
    unfold reapReadStep
    rw [if_neg]
    intro hcon
    rw [hst] at hcon
    cases hcon.1
  have hproc : reapProcStep now t = if now - t.created_at > 1800 then
      { t with status := TaskStatus.pending, client_id := none, read_at := none }
    else t := by
    unfold reapProcStep
    by_cases hc : now - t.created_at > 1800
    · rw [if_pos ⟨hst, hc⟩, if_pos hc]
    · rw [if_neg (fun hcon => hc hcon.2), if_neg hc]
  rw [cleanup_sweep_lookup hids ht, hread, hproc]

theorem c6_processing_reaped_iff_stale_witness :
    lookupTask (cleanup_sweep 2000 exStateRP).tasks "p1" =
      some { exTaskP with
        status := TaskStatus.pending, client_id := none, read_at := none } := by
  have h := c6_processing_reaped_iff_stale exStateRP 2000 exTaskP (by decide)
    (by decide) (by decide)
  rw [if_pos (by decide)] at h
  exact h

end LrcServer

namespace LrcServer

theorem start_processing_ok {s : ServerState} {tid w : String} {t : Task}
    (hL : lookupTask s.tasks tid = some t)
    (hown : t.client_id = some w) (hst : t.status = TaskStatus.reading) :
    start_processing tid w s = (Except.ok (), { s with
      tasks := updateTask tid { t with status := TaskStatus.processing } s.tasks }) := by
  simp only [start_processing, hL]
  rw [if_neg (not_not_intro hown), if_neg (not_not_intro hst)]

theorem report_result_ok {s : ServerState} {rr : TaskResult} {t : Task} {now : Int}
    (hL : lookupTask s.tasks rr.task_id = some t)
    (hown : t.client_id = some rr.client_id) :
    report_result rr now s = (Except.ok (), { s with
      tasks := removeTask rr.task_id s.tasks
      completed_tasks := upsertTask { t with
        status := if rr.success then TaskStatus.completed else TaskStatus.failed
        result := some { success := some rr.success, elapsed_time := some rr.elapsed_time
                         error := some rr.error, result_data := some rr.result_data
                         completed_at := some now } } s.completed_tasks }) := by
  simp only [report_result, hL]
  rw [if_neg (not_not_intro hown)]

theorem upload_result_ok {s : ServerState} {tid : String} {now sz : Int} {t : Task}
    (hL : lookupTask s.completed_tasks tid = some t) :
    (upload_result tid now sz s).1 = Except.ok ⟨tid, sz⟩ := by
  simp only [upload_result, hL]

theorem lookupClient_eq_none {cs : List ClientInfo} {w : String}
    (h : ∀ ci ∈ cs, ci.client_id ≠ w) : lookupClient cs w = none := by
  apply List.find?_eq_none.mpr
  intro ci hci
  simpa using h ci hci

/-- C7 counterexample: the archive `exStateArchive` holds the job `"f1"`
with status FAILED, yet `upload_result` accepts the upload for it — the
handler's only gate is membership in `completed_tasks`, so the claimed
InvalidState rejection of archived non-COMPLETED jobs does not exist. -/
theorem c7_upload_gate_counterexample :
    lookupTask exStateArchive.completed_tasks "f1" = some exTaskF ∧
    exTaskF.status = TaskStatus.failed ∧
    (upload_result "f1" 60 9 exStateArchive).1 = Except.ok ⟨"f1", 9⟩ :=
  ⟨rfl, rfl, rfl⟩

/-- C7 (amended): `upload_result` accepts an upload exactly when the job id
is present in the archive, whatever terminal status (COMPLETED or FAILED)
the archived job has, and rejects it with NotFound (404), leaving the store
unchanged, when the id is absent from the archive; there is no
InvalidState (400) rejection for archived non-COMPLETED jobs. -/
theorem c7_upload_archive_gate (tid : String) (now sz : Int) (s : ServerState) :
    (lookupTask s.completed_tasks tid = none →
       upload_result tid now sz s = (Except.error ⟨404⟩, s)) ∧
    (∀ t, lookupTask s.completed_tasks tid = some t →
       (upload_result tid now sz s).1 = Except.ok ⟨tid, sz⟩) := by
  constructor
  · intro hL
    simp only [upload_result, hL]
  · intro t hL
    exact upload_result_ok hL

theorem c7_upload_archive_gate_witness :
    upload_result "zz" 60 9 exStateArchive = (Except.error ⟨404⟩, exStateArchive) ∧
    (upload_result "f1" 61 9 exStateArchive).1 = Except.ok ⟨"f1", 9⟩ := by
  have h := c7_upload_archive_gate "zz" 60 9 exStateArchive
  have h2 := c7_upload_archive_gate "f1" 61 9 exStateArchive
  exact ⟨h.1 (by decide), h2.2 exTaskF (by decide)⟩

end LrcServer

namespace LrcClient

/-- C8: with base timeout 5, per-mask increment 5 and mask ceiling 120, a
config containing the mask-group marker and exactly three mask-image
markers yields an estimated timeout of 20 = 5 + 3·5 (under the 120 cap);
and a config containing no expensive-operation marker at all yields
exactly the base timeout, for any configuration. -/
theorem c8_timeout_estimator (ci mc : Int) (content1 content2 : List Char)
    (cfg2 : ClientConfig)
    (h1 : hasSub maskGroupMarker content1 = true)
    (h2 : countOcc maskImageMarker content1 = 3)
    (h3 : hasSub maskGroupMarker content2 = false)
    (h4 : ∀ p ∈ complexMarkers, hasSub p content2 = false) :
    calculate_processing_timeout
      { base_processing_timeout := 5, mask_increment_seconds := 5
        complex_increment_seconds := ci, max_timeout_mask := 120
        max_timeout_complex := mc } content1 = 20 ∧
    calculate_processing_timeout cfg2 content2 = cfg2.base_processing_timeout := by
  constructor
  · simp only [calculate_processing_timeout, h1, h2, if_true]
    decide
  · simp only [calculate_processing_timeout, h3]
    have hf : complexMarkers.filter (fun p => hasSub p content2) = [] := by
      apply List.filter_eq_nil_iff.mpr
      intro p hp
      simp [h4 p hp]
    simp [hf]

theorem c8_timeout_estimator_witness :
    calculate_processing_timeout
      { base_processing_timeout := 5, mask_increment_seconds := 5
        complex_increment_seconds := 3, max_timeout_mask := 120
        max_timeout_complex := 60 }
      ("MaskGroupBasedCorrections What = \"Mask/Image\" What = \"Mask/Image\" What = \"Mask/Image\"").toList = 20 ∧
    calculate_processing_timeout {}
      ("Exposure2012 = 0.5").toList = ({} : ClientConfig).base_processing_timeout := by
  have h := c8_timeout_estimator 3 60
    ("MaskGroupBasedCorrections What = \"Mask/Image\" What = \"Mask/Image\" What = \"Mask/Image\"").toList
    ("Exposure2012 = 0.5").toList {}
    (by decide) (by decide) (by decide) (by decide)
  exact h

end LrcClient

namespace LrcServer

/-- C10: only the claim endpoint consults the client registry —
`start_processing`, `report_result` and `upload_result` behave identically
under any contents of the `clients` dict — so after the reaper purges a
worker's stale registration (no heartbeat for over 600 s), that worker is
rejected with 403 by `get_task` but can still confirm, report the result
of, and upload the artifact for a job it currently owns. -/
theorem c10_registry_checked_only_on_claim
    (s : ServerState) (now : Int) (t : Task) (w : String) (rt : Int)
    (hids : (s.tasks.map Task.task_id).Nodup)
    (ht : t ∈ s.tasks) (hst : t.status = TaskStatus.reading)
    (hown : t.client_id = some w)
    (hread : t.read_at = some rt) (hfresh : ¬ now - rt > t.read_timeout)
    (hstale : ∀ ci ∈ s.clients, ci.client_id = w → now - ci.last_seen > 600)
    (success : Bool) (e : Int) (err pay : Option String) (n2 n3 sz : Int) :
    (∀ (s0 : ServerState) (cs : List ClientInfo) (tid wid : String),
       (start_processing tid wid { s0 with clients := cs }).1 =
         (start_processing tid wid s0).1) ∧
    (∀ (s0 : ServerState) (cs : List ClientInfo) (rr : TaskResult) (n : Int),
       (report_result rr n { s0 with clients := cs }).1 = (report_result rr n s0).1) ∧
    (∀ (s0 : ServerState) (cs : List ClientInfo) (tid : String) (n m : Int),
       (upload_result tid n m { s0 with clients := cs }).1 =
         (upload_result tid n m s0).1) ∧
    lookupClient (cleanup_sweep now s).clients w = none ∧
    (get_task w n2 (cleanup_sweep now s)).1 = Except.error ⟨403⟩ ∧
    ∃ s2 s3,
      start_processing t.task_id w (cleanup_sweep now s) = (Except.ok (), s2) ∧
      report_result { task_id := t.task_id, client_id := w, success := success
                      elapsed_time := e, error := err, result_data := pay } n2 s2 =
        (Except.ok (), s3) ∧
      (upload_result t.task_id n3 sz s3).1 = Except.ok ⟨t.task_id, sz⟩ := by
  have hind1 : ∀ (s0 : ServerState) (cs : List ClientInfo) (tid wid : String),
      (start_processing tid wid { s0 with clients := cs }).1 =
        (start_processing tid wid s0).1 := by
    intro s0 cs tid wid
    cases hL : lookupTask s0.tasks tid with
    | none => simp only [start_processing, hL]
    | some u =>
        simp only [start_processing, hL]
        by_cases h1 : u.client_id ≠ some wid
        · rw [if_pos h1, if_pos h1]
        · rw [if_neg h1, if_neg h1]
          by_cases h2 : u.status ≠ TaskStatus.reading
          · rw [if_pos h2, if_pos h2]
          · rw [if_neg h2, if_neg h2]
  have hind2 : ∀ (s0 : ServerState) (cs : List ClientInfo) (rr : TaskResult) (n : Int),
      (report_result rr n { s0 with clients := cs }).1 = (report_result rr n s0).1 := by
    intro s0 cs rr n
    cases hL : lookupTask s0.tasks rr.task_id with
    | none => simp only [report_result, hL]
    | some u =>
        simp only [report_result, hL]
        by_cases h1 : u.client_id ≠ some rr.client_id
        · rw [if_pos h1, if_pos h1]
        · rw [if_neg h1, if_neg h1]
  have hind3 : ∀ (s0 : ServerState) (cs : List ClientInfo) (tid : String) (n m : Int),
      (upload_result tid n m { s0 with clients := cs }).1 =
        (upload_result tid n m s0).1 := by
    intro s0 cs tid n m
    cases hL : lookupTask s0.completed_tasks tid with
    | none => simp only [upload_result, hL]
    | some u => simp only [upload_result, hL]
  have hpurged : lookupClient (cleanup_sweep now s).clients w = none := by
    apply lookupClient_eq_none
    intro ci hci hcon
    have hm := List.mem_filter.mp hci
    have h2 : ¬ now - ci.last_seen > 600 := by simpa using hm.2
    exact h2 (hstale ci hm.1 hcon)
  have hread1 : reapReadStep now t = t := by
    unfold reapReadStep
    rw [if_neg]
    intro hcon
    have h2 := hcon.2
    unfold readExpired at h2
    rw [hread] at h2
    rw [decide_eq_true_eq] at h2
    exact hfresh h2.2
  have hproc1 : reapProcStep now t = t := by
    unfold reapProcStep
    rw [if_neg]
    intro hcon
    rw [hst] at hcon
    cases hcon.1
  have hlk1 : lookupTask (cleanup_sweep now s).tasks t.task_id = some t := by
    rw [cleanup_sweep_lookup hids ht, hread1, hproc1]
  have hids1 : ((cleanup_sweep now s).tasks.map Task.task_id).Nodup := by
    rw [cleanup_sweep_ids]
    exact hids
  have e1 := start_processing_ok hlk1 hown hst
  have hlk2 : lookupTask (updateTask t.task_id
      { t with status := TaskStatus.processing } (cleanup_sweep now s).tasks) t.task_id =
      some { t with status := TaskStatus.processing } :=
    lookupTask_updateTask_self hids1 (lookupTask_mem hlk1) rfl
  exact ⟨hind1, hind2, hind3, hpurged,
    congrArg Prod.fst (get_task_of_unregistered hpurged), _, _, e1,
    report_result_ok hlk2 hown, upload_result_ok (lookupTask_upsertTask_self _ _)⟩

theorem c10_registry_checked_only_on_claim_witness :
    lookupClient (cleanup_sweep 1000 exStateC10).clients "w1" = none ∧
    (start_processing "t10" "w1" (cleanup_sweep 1000 exStateC10)).1 = Except.ok () := by
  have h := c10_registry_checked_only_on_claim exStateC10 1000 exTaskC10 "w1" 995
    (by decide) (by decide) (by decide) (by decide) (by decide) (by decide)
    (by decide) true 3 none none 1001 1002 7
  obtain ⟨-, -, -, h4, -, s2, s3, e1, -, -⟩ := h
  exact ⟨h4, congrArg Prod.fst e1⟩

end LrcServer
